import Mathlib

/-!
Verification development for the compliance-tracker repository's compliance
evaluation engine.

The embedded code comes from two sources:
* `app/services/complianceRules.server.ts` (the pure rule classes
  `NorwegianForprisRule`, `SaleDurationRule`, `SalesFrequencyRule` and the
  evaluator `checkProductCompliance`), embedded below at top level; and
* `app/services/complianceChecker.server.ts` (the DB-backed variant), whose
  pure decision cores are embedded in the `Checker` namespace as functions of
  the data they fetch.

Modelling conventions:
* JS timestamps (`Date.getTime()`, milliseconds) are `Int`; prices are `ℚ`.
* `Math.floor(x / d)` and `Math.ceil(x / d)` on millisecond differences are
  exact integer floor/ceiling division (`floorDays` / `ceilDays`).
* JS truthiness on a `number | null` field (`!entry.compareAtPrice`) is
  falsity for `none` and for `some 0`.
* Issue messages interpolate numbers into template strings; string rendering
  of numbers is outside the embedding, so messages are modelled structurally
  as a `Msg` value holding the template's identity and its numeric payloads.
-/

/-- Milliseconds per day: the `1000 * 60 * 60 * 24` divisor used throughout
the source. -/
def msPerDay : Int := 86400000

/-- `Math.floor((a) / msPerDay)` for an integer millisecond difference `a`. -/
def floorDays (ms : Int) : Int := Int.fdiv ms msPerDay

/-- `Math.ceil((a) / msPerDay)` for an integer millisecond difference `a`
(`Math.ceil (x / d) = -Math.floor (-x / d)`). -/
def ceilDays (ms : Int) : Int := -(Int.fdiv (-ms) msPerDay)

/-- Structural model of the issue/result message strings produced by the two
rule implementations.  Each constructor is one template; its arguments are the
numbers the source interpolates into the string. -/
inductive Msg where
  /-- part_001 førpris: reference price higher than the pre-sale lowest. -/
  | forprisHigh (ref lowest : ℚ)
  /-- part_001 saleDuration: running `days` exceeds the 110-day maximum. -/
  | durationExceeded110 (days : Int)
  /-- part_001 saleFrequency: only `days` between periods, minimum 30. -/
  | frequencyTooClose30 (days : Int)
  /-- checker førpris: "No reference price set". -/
  | noReferenceSet
  /-- checker førpris: "No price history available for the last 30 days". -/
  | noHistory30
  /-- checker førpris: "Product has been on sale for the entire 30-day period". -/
  | allOnSale30
  /-- checker førpris: reference price lower than lowest regular price. -/
  | refLowerThanLowest (ref lowest : ℚ)
  /-- checker førpris: reference price must be the lowest regular price. -/
  | refMustBeLowest (ref lowest : ℚ)
  /-- checker førpris: "Reference price complies with regulations". -/
  | refOk
  /-- checker duration: "Sale just started or not previously tracked". -/
  | saleJustStarted
  /-- checker duration: running `days` exceeds the maximum of 56 days. -/
  | durationExceeded56 (days : Int)
  /-- checker duration: "Sale duration complies with regulations". -/
  | durationOk
  /-- checker frequency: "Not enough price history ...". -/
  | notEnoughHistory
  /-- checker frequency: "Only one sale period detected". -/
  | onlyOnePeriod
  /-- checker frequency: only `days` between sales, minimum `limit` required. -/
  | daysBetweenSales (days limit : Int)
  /-- checker frequency: "Sales frequency complies with regulations". -/
  | frequencyOk
deriving DecidableEq

/-- `ComplianceIssue` from complianceRules.server.ts. -/
structure ComplianceIssue where
  rule : String
  message : Msg
deriving DecidableEq

/-- `ComplianceResult` from complianceRules.server.ts. -/
structure ComplianceResult where
  isCompliant : Bool
  issues : List ComplianceIssue
deriving DecidableEq

/-- `PriceHistoryEntry` from complianceRules.server.ts.  `timestamp` is the
epoch-millisecond value of the `Date`; `isReference` is the optional flag of
the interface (never read by any rule). -/
structure PriceHistoryEntry where
  timestamp : Int
  price : ℚ
  compareAtPrice : Option ℚ
  isReference : Option Bool := none
deriving DecidableEq

/-- `ProductData` from complianceRules.server.ts. -/
structure ProductData where
  shop : String
  productId : String
  variantId : String
  price : ℚ
  compareAtPrice : Option ℚ
  saleStartDate : Option Int := none
  isOnSale : Bool
deriving DecidableEq

/-- A detected sale period `{start, end}` (the source's `end` field is named
`stop` here because `end` is a Lean keyword). -/
structure SalePeriod where
  start : Int
  stop : Int
deriving DecidableEq

/-- JS truthiness of a `number | null` reference price: `null`/`0` are falsy. -/
def capTruthy : Option ℚ → Bool
  | none => false
  | some c => c != 0

/-- The per-observation on-sale test
`entry.compareAtPrice && entry.compareAtPrice > entry.price`
(findSalesPeriods, findSaleStartDate, and the checker's inline detector all
use this form; `&&` makes a `0` reference price falsy). -/
def obsOnSale (e : PriceHistoryEntry) : Bool :=
  match e.compareAtPrice with
  | none => false
  | some c => (c != 0) && decide (c > e.price)

/-- The product-level on-sale test of checkProductCompliance in
complianceChecker.server.ts:
`compareAtPrice !== null && compareAtPrice > currentPrice`
(an explicit null check, no truthiness). -/
def productOnSale (compareAtPrice : Option ℚ) (currentPrice : ℚ) : Bool :=
  match compareAtPrice with
  | none => false
  | some c => decide (c > currentPrice)

/-- `Math.min(...)` over a list of prices (only ever applied behind a
non-emptiness guard in the source; the `[]` value is arbitrary). -/
def listMin : List ℚ → ℚ
  | [] => 0
  | [x] => x
  | x :: y :: xs => min x (listMin (y :: xs))

/-- `[...priceHistory].sort((a, b) => a.timestamp.getTime() - b.timestamp.getTime())`:
a stable sort by ascending timestamp, modelled as Mathlib's (stable)
insertion sort. -/
def sortByTs (h : List PriceHistoryEntry) : List PriceHistoryEntry :=
  h.insertionSort (fun a b => a.timestamp ≤ b.timestamp)

/-- `salesPeriods.sort((a, b) => a.start.getTime() - b.start.getTime())`. -/
def sortPeriodsByStart (ps : List SalePeriod) : List SalePeriod :=
  ps.insertionSort (fun a b => a.start ≤ b.start)

/-- One iteration of the period-detection loop shared by
`SalesFrequencyRule.findSalesPeriods` and the inline detector of the checker's
`checkSalesFrequency`: state is `(salesPeriods, currentPeriod)`. -/
def segStep (acc : List SalePeriod × Option SalePeriod) (e : PriceHistoryEntry) :
    List SalePeriod × Option SalePeriod :=
  match acc.2, obsOnSale e with
  | none, true => (acc.1, some ⟨e.timestamp, e.timestamp⟩)
  | some p, true => (acc.1, some ⟨p.start, e.timestamp⟩)
  | some p, false => (acc.1 ++ [p], none)
  | none, false => (acc.1, none)

/-- The detection loop over an (already ordered) entry list, including the
final "add the current period if it's still ongoing" step. -/
def detectPeriods (h : List PriceHistoryEntry) : List SalePeriod :=
  match h.foldl segStep ([], none) with
  | (ps, some p) => ps ++ [p]
  | (ps, none) => ps

/-- `SalesFrequencyRule.findSalesPeriods` from complianceRules.server.ts:
returns `[]` for histories shorter than two entries, otherwise sorts by
timestamp and runs the detection loop. -/
def findSalesPeriods (h : List PriceHistoryEntry) : List SalePeriod :=
  if h.length < 2 then [] else detectPeriods (sortByTs h)

/-- The `for (let i = 1; ...)` scan of `findSaleStartDate`: walk adjacent
pairs of the sorted history and return the timestamp of the first entry that
is on sale while its predecessor is not. -/
def findTransition : PriceHistoryEntry → List PriceHistoryEntry → Option Int
  | _, [] => none
  | prev, curr :: rest =>
      if !obsOnSale prev && obsOnSale curr then some curr.timestamp
      else findTransition curr rest

/-- `findSaleStartDate` (the identical private method of
`NorwegianForprisRule` and `SaleDurationRule`): `none` for histories shorter
than two entries; otherwise the first not-on-sale → on-sale transition of the
sorted history, falling back to the first on-sale entry's timestamp.
(The source's first-disjunct guard
`!prevEntry.compareAtPrice || prevEntry.compareAtPrice <= prevEntry.price`
is exactly `!obsOnSale prev`.) -/
def findSaleStartDate (h : List PriceHistoryEntry) : Option Int :=
  if h.length < 2 then none
  else
    match sortByTs h with
    | [] => none
    | e :: es =>
      match findTransition e es with
      | some t => some t
      | none => ((e :: es).find? obsOnSale).map (·.timestamp)

/-- `product.saleStartDate || this.findSaleStartDate(priceHistory)`
(a `Date` object is always truthy, so a supplied field always wins). -/
def resolveSaleStart (p : ProductData) (h : List PriceHistoryEntry) : Option Int :=
  match p.saleStartDate with
  | some s => some s
  | none => findSaleStartDate h

/-- The 30-day pre-sale window filter of `NorwegianForprisRule.check`:
observations with `thirtyDaysBefore <= timestamp < saleStartDate`
(JS `setDate(getDate() - 30)` modelled as 30 exact days). -/
def preSaleWindow (saleStart : Int) (h : List PriceHistoryEntry) :
    List PriceHistoryEntry :=
  h.filter (fun e =>
    decide (e.timestamp < saleStart) && decide (saleStart - 30 * msPerDay ≤ e.timestamp))

namespace NorwegianForprisRule

/-- `NorwegianForprisRule.check` from complianceRules.server.ts. -/
def check (p : ProductData) (h : List PriceHistoryEntry) : ComplianceResult :=
  match p.compareAtPrice with
  | none => ⟨true, []⟩
  | some c =>
    if !p.isOnSale || c == 0 then ⟨true, []⟩
    else
      match resolveSaleStart p h with
      | none => ⟨true, []⟩
      | some saleStart =>
        let preSalePrices := (preSaleWindow saleStart h).map (·.price)
        if preSalePrices.isEmpty then ⟨true, []⟩
        else
          let lowestPrice := listMin preSalePrices
          if c > lowestPrice then
            ⟨false, [⟨"førpris", Msg.forprisHigh c lowestPrice⟩]⟩
          else ⟨true, []⟩

end NorwegianForprisRule

namespace SaleDurationRule

/-- `SaleDurationRule.check` from complianceRules.server.ts; `now` is the
`new Date()` the method reads (`Math.ceil` over the day quotient, hard 110-day
limit). -/
def check (p : ProductData) (h : List PriceHistoryEntry) (now : Int) : ComplianceResult :=
  match p.compareAtPrice with
  | none => ⟨true, []⟩
  | some c =>
    if !p.isOnSale || c == 0 then ⟨true, []⟩
    else
      match resolveSaleStart p h with
      | none => ⟨true, []⟩
      | some saleStart =>
        let saleDurationDays := ceilDays (now - saleStart)
        if saleDurationDays > 110 then
          ⟨false, [⟨"saleDuration", Msg.durationExceeded110 saleDurationDays⟩]⟩
        else ⟨true, []⟩

end SaleDurationRule

namespace SalesFrequencyRule

/-- The gap loop of `SalesFrequencyRule.check`: `Math.ceil` day gaps, 30-day
minimum, `break` after the first violation. -/
def freqScan : SalePeriod → List SalePeriod → ComplianceResult
  | _, [] => ⟨true, []⟩
  | prev, curr :: rest =>
      let daysBetween := ceilDays (curr.start - prev.stop)
      if daysBetween < 30 then
        ⟨false, [⟨"saleFrequency", Msg.frequencyTooClose30 daysBetween⟩]⟩
      else freqScan curr rest

/-- `SalesFrequencyRule.check` from complianceRules.server.ts. -/
def check (p : ProductData) (h : List PriceHistoryEntry) : ComplianceResult :=
  match p.compareAtPrice with
  | none => ⟨true, []⟩
  | some c =>
    if !p.isOnSale || c == 0 then ⟨true, []⟩
    else
      let salesPeriods := findSalesPeriods h
      if salesPeriods.length ≤ 1 then ⟨true, []⟩
      else
        match sortPeriodsByStart salesPeriods with
        | [] => ⟨true, []⟩
        | q :: rest => freqScan q rest

end SalesFrequencyRule

/-- The issue-collection step of the evaluator's rule loop: a rule's issues
are appended (and the flag cleared) only when the rule reports non-compliance. -/
def mergeRuleResult (acc ruleResult : ComplianceResult) : ComplianceResult :=
  if !ruleResult.isCompliant then ⟨false, acc.issues ++ ruleResult.issues⟩ else acc

/-- `checkProductCompliance` from complianceRules.server.ts: runs the three
rules in order and aggregates their issues; `now` is the clock instant the
duration rule reads. -/
def checkProductCompliance (p : ProductData) (h : List PriceHistoryEntry)
    (now : Int) : ComplianceResult :=
  mergeRuleResult
    (mergeRuleResult
      (mergeRuleResult ⟨true, []⟩ (NorwegianForprisRule.check p h))
      (SaleDurationRule.check p h now))
    (SalesFrequencyRule.check p h)

namespace Checker

/-- The `{ isCompliant, message }` shape returned by the three private rule
functions of complianceChecker.server.ts. -/
structure RuleOutcome where
  isCompliant : Bool
  message : Msg
deriving DecidableEq

/-- `checkNorwegianReferencePrice` from complianceChecker.server.ts, as a
function of the fetched last-30-days history (`recentPrices`, ordered
ascending) and the current `compareAtPrice`.  Note both empty cases return
`isCompliant: false`. -/
def checkNorwegianReferencePrice (recentPrices : List PriceHistoryEntry)
    (compareAtPrice : Option ℚ) : RuleOutcome :=
  if !capTruthy compareAtPrice then ⟨true, Msg.noReferenceSet⟩
  else
    match compareAtPrice with
    | none => ⟨true, Msg.noReferenceSet⟩
    | some cap =>
      if recentPrices.isEmpty then ⟨false, Msg.noHistory30⟩
      else
        let regularPrices := recentPrices.filter (fun e =>
          !capTruthy e.compareAtPrice ||
            (match e.compareAtPrice with
             | none => true
             | some c => decide (e.price ≥ c)))
        if regularPrices.isEmpty then ⟨false, Msg.allOnSale30⟩
        else
          let lowestRegularPrice := listMin (regularPrices.map (·.price))
          if cap < lowestRegularPrice then
            ⟨false, Msg.refLowerThanLowest cap lowestRegularPrice⟩
          else if cap > lowestRegularPrice then
            ⟨false, Msg.refMustBeLowest cap lowestRegularPrice⟩
          else ⟨true, Msg.refOk⟩

/-- `checkSalesDuration` from complianceChecker.server.ts, as a function of
the stored compliance record's `saleStartDate` and the current clock
(`Math.floor` day quotient, hard 56-day limit). -/
def checkSalesDuration (saleStartDate : Option Int) (now : Int) : RuleOutcome :=
  match saleStartDate with
  | none => ⟨true, Msg.saleJustStarted⟩
  | some s =>
    let saleDurationDays := floorDays (now - s)
    if saleDurationDays > 56 then
      ⟨false, Msg.durationExceeded56 saleDurationDays⟩
    else ⟨true, Msg.durationOk⟩

/-- The `for (let i = 1; ...)` gap scan of `checkSalesFrequency`:
`Math.floor` day gaps, hard 28-day minimum, early return at the first
violation. -/
def scanGaps : SalePeriod → List SalePeriod → RuleOutcome
  | _, [] => ⟨true, Msg.frequencyOk⟩
  | prev, curr :: rest =>
      let daysBetweenSales := floorDays (curr.start - prev.stop)
      if daysBetweenSales < 28 then
        ⟨false, Msg.daysBetweenSales daysBetweenSales 28⟩
      else scanGaps curr rest

/-- `checkSalesFrequency` from complianceChecker.server.ts, as a function of
the fetched six-month history (ordered ascending by the query; the inline
detector does not sort). -/
def checkSalesFrequency (priceHistory : List PriceHistoryEntry) : RuleOutcome :=
  if priceHistory.length < 2 then ⟨true, Msg.notEnoughHistory⟩
  else
    let salesPeriods := detectPeriods priceHistory
    if salesPeriods.length ≤ 1 then ⟨true, Msg.onlyOnePeriod⟩
    else
      match salesPeriods with
      | [] => ⟨true, Msg.onlyOnePeriod⟩
      | p :: rest => scanGaps p rest

end Checker

/-!  Auxiliary definitions for the statements and proofs below. -/

/-- Recursive presentation of the detection loop: the list of periods emitted
by `segStep` starting from an open period `cur` (proved equal to the fold in
`detectPeriods_eq_seg2`). -/
def seg2 : Option SalePeriod → List PriceHistoryEntry → List SalePeriod
  | none, [] => []
  | some p, [] => [p]
  | none, e :: es =>
      if obsOnSale e then seg2 (some ⟨e.timestamp, e.timestamp⟩) es
      else seg2 none es
  | some p, e :: es =>
      if obsOnSale e then seg2 (some ⟨p.start, e.timestamp⟩) es
      else p :: seg2 none es

/-- Strictly ascending timestamps (the "sorted ascending" input contract of
the spec, read strictly: one observation per polling instant). -/
def Asc (h : List PriceHistoryEntry) : Prop :=
  List.Pairwise (fun a b => a.timestamp < b.timestamp) h

/-- Invariant tying an open period to the entries still to be scanned: the
period is well-formed and closes strictly before every remaining timestamp. -/
def OkCur : Option SalePeriod → List PriceHistoryEntry → Prop
  | none, _ => True
  | some p, h => p.start ≤ p.stop ∧ ∀ e ∈ h, p.stop < e.timestamp

/-- Timestamp `t` lies inside the (closed) interval of period `q`. -/
def inPeriod (t : Int) (q : SalePeriod) : Prop := q.start ≤ t ∧ t ≤ q.stop

/-- Test fixture: an observation `days` days after the epoch. -/
def obsAt (days : Int) (price : ℚ) (cap : Option ℚ) : PriceHistoryEntry :=
  ⟨days * msPerDay, price, cap, none⟩

/-- Test fixture: an on-sale product state. -/
def onSaleProduct (price : ℚ) (cap : Option ℚ) (saleStart : Option Int) : ProductData :=
  ⟨"shop", "prod", "var", price, cap, saleStart, true⟩

/-- Test fixture: a product state that is not on sale. -/
def offSaleProduct (price : ℚ) : ProductData :=
  ⟨"shop", "prod", "var", price, none, none, false⟩

/-- Test fixture: one on-sale then one regular observation, sorted. -/
def histTwoObs : List PriceHistoryEntry := [obsAt 1 50 (some 100), obsAt 2 80 none]

/-- Test fixture: two on-sale observations in descending timestamp order. -/
def histUnsorted : List PriceHistoryEntry := [obsAt 2 50 (some 100), obsAt 1 60 (some 100)]

/-- Test fixture: a single pre-sale observation that was itself on sale. -/
def histAllSaleWindow : List PriceHistoryEntry := [obsAt 10 50 (some 60)]

/-- Test fixture: a single regular pre-sale observation at price 100. -/
def histRegular100 : List PriceHistoryEntry := [obsAt 10 100 none]

/-- Test fixture: two sale periods only 11 days apart. -/
def histFrequentSales : List PriceHistoryEntry :=
  [obsAt 1 50 (some 100), obsAt 2 100 none, obsAt 12 50 (some 100)]

/-- Test fixture: an on-sale product with an empty history and a supplied
sale start at the epoch. -/
def productEmptyHist : ProductData := onSaleProduct 50 (some 100) (some 0)

/-- Test fixture: an on-sale product at price 80 whose sale started 20 days
after the epoch. -/
def productWindow20 (cap : ℚ) : ProductData :=
  onSaleProduct 80 (some cap) (some (20 * msPerDay))

instance : IsTotal PriceHistoryEntry (fun a b => a.timestamp ≤ b.timestamp) :=
  ⟨fun a b => Int.le_total a.timestamp b.timestamp⟩

instance : IsTrans PriceHistoryEntry (fun a b => a.timestamp ≤ b.timestamp) :=
  ⟨fun _ _ _ hab hbc => le_trans hab hbc⟩

/-!  Helper lemmas. -/

theorem foldl_segStep_eq (h : List PriceHistoryEntry) :
    ∀ (acc : List SalePeriod) (cur : Option SalePeriod),
      (match h.foldl segStep (acc, cur) with
       | (ps, some p) => ps ++ [p]
       | (ps, none) => ps) = acc ++ seg2 cur h := by
  induction h with
  | nil => intro acc cur; cases cur <;> simp [seg2]
  | cons e es ih =>
    intro acc cur
    cases cur with
    | none =>
      by_cases he : obsOnSale e <;>
        simp [List.foldl_cons, segStep, he, seg2, ih]
    | some p =>
      by_cases he : obsOnSale e <;>
        simp [List.foldl_cons, segStep, he, seg2, ih]

theorem detectPeriods_eq_seg2 (h : List PriceHistoryEntry) :
    detectPeriods h = seg2 none h := by
  simpa [detectPeriods] using foldl_segStep_eq h [] none

theorem sortByTs_of_asc {h : List PriceHistoryEntry} (hs : Asc h) :
    sortByTs h = h :=
  List.Sorted.insertionSort_eq (hs.imp fun hlt => le_of_lt hlt)

theorem sortByTs_idem (h : List PriceHistoryEntry) :
    sortByTs (sortByTs h) = sortByTs h :=
  List.Sorted.insertionSort_eq
    (List.sorted_insertionSort (fun a b => a.timestamp ≤ b.timestamp) h)

theorem seg2_start_src (h : List PriceHistoryEntry) :
    ∀ (cur : Option SalePeriod) (q : SalePeriod), q ∈ seg2 cur h →
      (∃ p, cur = some p ∧ q.start = p.start) ∨
        ∃ e ∈ h, obsOnSale e = true ∧ q.start = e.timestamp := by
  induction h with
  | nil =>
    intro cur q hq
    cases cur with
    | none => simp [seg2] at hq
    | some p =>
      simp only [seg2, List.mem_singleton] at hq
      exact Or.inl ⟨p, rfl, by rw [hq]⟩
  | cons e es ih =>
    intro cur q hq
    cases cur with
    | none =>
      by_cases he : obsOnSale e
      · rw [seg2, if_pos he] at hq
        rcases ih _ q hq with ⟨p, hp, hstart⟩ | ⟨e', he', hon, hstart⟩
        · right
          refine ⟨e, List.mem_cons_self e es, he, ?_⟩
          rw [hstart, Option.some.injEq] at *
          rw [← hp]
        · exact Or.inr ⟨e', List.mem_cons_of_mem e he', hon, hstart⟩
      · rw [seg2, if_neg he] at hq
        rcases ih _ q hq with ⟨p, hp, _⟩ | ⟨e', he', hon, hstart⟩
        · exact absurd hp (by simp)
        · exact Or.inr ⟨e', List.mem_cons_of_mem e he', hon, hstart⟩
    | some p =>
      by_cases he : obsOnSale e
      · rw [seg2, if_pos he] at hq
        rcases ih _ q hq with ⟨p', hp', hstart⟩ | ⟨e', he', hon, hstart⟩
        · rw [Option.some.injEq] at hp'
          exact Or.inl ⟨p, rfl, by rw [hstart, ← hp']⟩
        · exact Or.inr ⟨e', List.mem_cons_of_mem e he', hon, hstart⟩
      · rw [seg2, if_neg he] at hq
        rcases List.mem_cons.mp hq with hqp | hq'
        · exact Or.inl ⟨p, rfl, by rw [hqp]⟩
        · rcases ih none q hq' with ⟨p', hp', _⟩ | ⟨e', he', hon, hstart⟩
          · exact absurd hp' (by simp)
          · exact Or.inr ⟨e', List.mem_cons_of_mem e he', hon, hstart⟩

theorem seg2_ordered (h : List PriceHistoryEntry) :
    ∀ (cur : Option SalePeriod), Asc h → OkCur cur h →
      List.Pairwise (fun a b => a.stop < b.start) (seg2 cur h) ∧
        ∀ q ∈ seg2 cur h, q.start ≤ q.stop := by
  induction h with
  | nil =>
    intro cur _ hok
    cases cur with
    | none => simp [seg2]
    | some p =>
      refine ⟨List.pairwise_singleton _ _, ?_⟩
      intro q hq
      rw [List.mem_singleton.mp hq]
      exact hok.1
  | cons e es ih =>
    intro cur hasc hok
    have hasc2 : List.Pairwise (fun a b => a.timestamp < b.timestamp) (e :: es) := hasc
    have hasc' : Asc es := (List.pairwise_cons.mp hasc2).2
    have hlt : ∀ e' ∈ es, e.timestamp < e'.timestamp := (List.pairwise_cons.mp hasc2).1
    cases cur with
    | none =>
      by_cases he : obsOnSale e
      · rw [seg2, if_pos he]
        exact ih (some ⟨e.timestamp, e.timestamp⟩) hasc' ⟨le_refl _, hlt⟩
      · rw [seg2, if_neg he]
        exact ih none hasc' trivial
    | some p =>
      have hpe : p.stop < e.timestamp := hok.2 e (List.mem_cons_self e es)
      by_cases he : obsOnSale e
      · rw [seg2, if_pos he]
        exact ih (some ⟨p.start, e.timestamp⟩) hasc'
          ⟨le_of_lt (lt_of_le_of_lt hok.1 hpe), hlt⟩
      · rw [seg2, if_neg he]
        obtain ⟨hpw, hbound⟩ := ih none hasc' trivial
        constructor
        · refine List.pairwise_cons.mpr ⟨?_, hpw⟩
          intro q hq
          rcases seg2_start_src es none q hq with ⟨p', hp', _⟩ | ⟨e', he', _, hstart⟩
          · exact absurd hp' (by simp)
          · rw [hstart]
            exact hok.2 e' (List.mem_cons_of_mem e he')
        · intro q hq
          rcases List.mem_cons.mp hq with h1 | h2
          · rw [h1]; exact hok.1
          · exact hbound q h2

theorem seg2_open (h : List PriceHistoryEntry) :
    ∀ p : SalePeriod, Asc h → OkCur (some p) h →
      ∃ q ∈ seg2 (some p) h, q.start = p.start ∧ p.stop ≤ q.stop := by
  induction h with
  | nil =>
    intro p _ _
    exact ⟨p, by simp [seg2], rfl, le_refl _⟩
  | cons e es ih =>
    intro p hasc hok
    have hasc2 : List.Pairwise (fun a b => a.timestamp < b.timestamp) (e :: es) := hasc
    have hasc' : Asc es := (List.pairwise_cons.mp hasc2).2
    have hlt : ∀ e' ∈ es, e.timestamp < e'.timestamp := (List.pairwise_cons.mp hasc2).1
    have hpe : p.stop < e.timestamp := hok.2 e (List.mem_cons_self e es)
    by_cases he : obsOnSale e
    · rw [seg2, if_pos he]
      obtain ⟨q, hq, hstart, hstop⟩ :=
        ih ⟨p.start, e.timestamp⟩ hasc' ⟨le_of_lt (lt_of_le_of_lt hok.1 hpe), hlt⟩
      exact ⟨q, hq, hstart, le_trans (le_of_lt hpe) hstop⟩
    · rw [seg2, if_neg he]
      exact ⟨p, List.mem_cons_self p _, rfl, le_refl _⟩

theorem seg2_cover (h : List PriceHistoryEntry) :
    ∀ (cur : Option SalePeriod), Asc h → OkCur cur h →
      ∀ e ∈ h, obsOnSale e = true →
        ∃ q ∈ seg2 cur h, inPeriod e.timestamp q := by
  induction h with
  | nil =>
    intro cur _ _ e he
    exact absurd he (List.not_mem_nil e)
  | cons f es ih =>
    intro cur hasc hok e he hon
    have hasc2 : List.Pairwise (fun a b => a.timestamp < b.timestamp) (f :: es) := hasc
    have hasc' : Asc es := (List.pairwise_cons.mp hasc2).2
    have hlt : ∀ e' ∈ es, f.timestamp < e'.timestamp := (List.pairwise_cons.mp hasc2).1
    rcases List.mem_cons.mp he with rfl | he'
    · cases cur with
      | none =>
        rw [seg2, if_pos hon]
        obtain ⟨q, hq, hstart, hstop⟩ :=
          seg2_open es ⟨e.timestamp, e.timestamp⟩ hasc' ⟨le_refl _, hlt⟩
        exact ⟨q, hq, le_of_eq hstart, hstop⟩
      | some p =>
        have hpe : p.stop < e.timestamp := hok.2 e (List.mem_cons_self e es)
        rw [seg2, if_pos hon]
        obtain ⟨q, hq, hstart, hstop⟩ :=
          seg2_open es ⟨p.start, e.timestamp⟩ hasc'
            ⟨le_of_lt (lt_of_le_of_lt hok.1 hpe), hlt⟩
        refine ⟨q, hq, ?_, hstop⟩
        rw [hstart]
        exact le_of_lt (lt_of_le_of_lt hok.1 hpe)
    · cases cur with
      | none =>
        by_cases hf : obsOnSale f
        · rw [seg2, if_pos hf]
          exact ih (some ⟨f.timestamp, f.timestamp⟩) hasc' ⟨le_refl _, hlt⟩ e he' hon
        · rw [seg2, if_neg hf]
          exact ih none hasc' trivial e he' hon
      | some p =>
        have hpf : p.stop < f.timestamp := hok.2 f (List.mem_cons_self f es)
        by_cases hf : obsOnSale f
        · rw [seg2, if_pos hf]
          exact ih (some ⟨p.start, f.timestamp⟩) hasc'
            ⟨le_of_lt (lt_of_le_of_lt hok.1 hpf), hlt⟩ e he' hon
        · rw [seg2, if_neg hf]
          obtain ⟨q, hq, hin⟩ := ih none hasc' trivial e he' hon
          exact ⟨q, List.mem_cons_of_mem p hq, hin⟩

theorem seg2_noncover (h : List PriceHistoryEntry) :
    ∀ (cur : Option SalePeriod), Asc h → OkCur cur h →
      ∀ e ∈ h, obsOnSale e = false →
        ∀ q ∈ seg2 cur h, ¬ inPeriod e.timestamp q := by
  induction h with
  | nil =>
    intro cur _ _ e he
    exact absurd he (List.not_mem_nil e)
  | cons f es ih =>
    intro cur hasc hok e he hoff q hq
    have hasc2 : List.Pairwise (fun a b => a.timestamp < b.timestamp) (f :: es) := hasc
    have hasc' : Asc es := (List.pairwise_cons.mp hasc2).2
    have hlt : ∀ e' ∈ es, f.timestamp < e'.timestamp := (List.pairwise_cons.mp hasc2).1
    rcases List.mem_cons.mp he with rfl | he'
    · cases cur with
      | none =>
        rw [seg2, if_neg (by rw [hoff]; exact Bool.false_ne_true)] at hq
        rcases seg2_start_src es none q hq with ⟨p', hp', _⟩ | ⟨e', he'', _, hstart⟩
        · exact absurd hp' (by simp)
        · intro hin
          have : e.timestamp < q.start := by
            rw [hstart]; exact hlt e' he''
          exact absurd hin.1 (not_le_of_lt this)
      | some p =>
        have hpe : p.stop < e.timestamp := hok.2 e (List.mem_cons_self e es)
        rw [seg2, if_neg (by rw [hoff]; exact Bool.false_ne_true)] at hq
        rcases List.mem_cons.mp hq with rfl | hq'
        · intro hin
          exact absurd hin.2 (not_le_of_lt hpe)
        · rcases seg2_start_src es none q hq' with ⟨p', hp', _⟩ | ⟨e', he'', _, hstart⟩
          · exact absurd hp' (by simp)
          · intro hin
            have : e.timestamp < q.start := by
              rw [hstart]; exact hlt e' he''
            exact absurd hin.1 (not_le_of_lt this)
    · cases cur with
      | none =>
        by_cases hf : obsOnSale f
        · rw [seg2, if_pos hf] at hq
          exact ih (some ⟨f.timestamp, f.timestamp⟩) hasc' ⟨le_refl _, hlt⟩ e he' hoff q hq
        · rw [seg2, if_neg hf] at hq
          exact ih none hasc' trivial e he' hoff q hq
      | some p =>
        have hpf : p.stop < f.timestamp := hok.2 f (List.mem_cons_self f es)
        by_cases hf : obsOnSale f
        · rw [seg2, if_pos hf] at hq
          exact ih (some ⟨p.start, f.timestamp⟩) hasc'
            ⟨le_of_lt (lt_of_le_of_lt hok.1 hpf), hlt⟩ e he' hoff q hq
        · rw [seg2, if_neg hf] at hq
          rcases List.mem_cons.mp hq with rfl | hq'
          · intro hin
            have : q.stop < e.timestamp := lt_trans hpf (hlt e he')
            exact absurd hin.2 (not_le_of_lt this)
          · exact ih none hasc' trivial e he' hoff q hq'

theorem pairwise_mem_cases {α : Type} {r : α → α → Prop} :
    ∀ {l : List α}, List.Pairwise r l →
      ∀ {a b : α}, a ∈ l → b ∈ l → a = b ∨ r a b ∨ r b a := by
  intro l hl
  induction hl with
  | nil =>
    intro a b ha
    exact absurd ha (List.not_mem_nil a)
  | cons hhead _ ih =>
    intro a b ha hb
    rcases List.mem_cons.mp ha with rfl | ha' <;>
      rcases List.mem_cons.mp hb with hb' | hb'
    · exact Or.inl hb'.symm
    · exact Or.inr (Or.inl (hhead b hb'))
    · rw [hb']
      exact Or.inr (Or.inr (hhead a ha'))
    · exact ih ha' hb'

/-!  Claim theorems. -/

/-- **C9**: whenever the reference price is present and exactly equal to the
price, the on-sale predicate is false — both the per-observation predicate of
the detectors and the product-level predicate of the checker use a strict
`>` comparison, so equality never counts as on sale. -/
theorem onSale_requires_strict_inequality :
    (∀ e : PriceHistoryEntry, e.compareAtPrice = some e.price → obsOnSale e = false) ∧
      (∀ price : ℚ, productOnSale (some price) price = false) := by
  constructor
  · intro e hcap
    simp [obsOnSale, hcap]
  · intro price
    simp [productOnSale]

/-- Witness for C9 at a concrete observation and price. -/
theorem onSale_requires_strict_inequality_witness :
    obsOnSale (obsAt 3 100 (some 100)) = false ∧ productOnSale (some 100) 100 = false :=
  ⟨onSale_requires_strict_inequality.1 (obsAt 3 100 (some 100)) rfl,
   onSale_requires_strict_inequality.2 100⟩

/-- **C10**: for a product that is not on sale (or whose reference price is
absent or zero), `SalesFrequencyRule.check` returns compliant with no issues
for every history — past sale periods with violating gaps are never examined
once the current sale has ended. -/
theorem salesFrequency_requires_on_sale (p : ProductData) (h : List PriceHistoryEntry)
    (hp : p.isOnSale = false ∨ p.compareAtPrice = none ∨ p.compareAtPrice = some 0) :
    SalesFrequencyRule.check p h = ⟨true, []⟩ := by
  rcases hp with hp | hp | hp
  · cases hcap : p.compareAtPrice with
    | none => simp [SalesFrequencyRule.check, hcap]
    | some c => simp [SalesFrequencyRule.check, hcap, hp]
  · simp [SalesFrequencyRule.check, hp]
  · simp [SalesFrequencyRule.check, hp]

/-- Witness for C10: an off-sale product is compliant over a history whose
two sale periods are only 11 days apart, while the identical history flags an
on-sale product. -/
theorem salesFrequency_requires_on_sale_witness :
    SalesFrequencyRule.check (offSaleProduct 50) histFrequentSales = ⟨true, []⟩ ∧
      SalesFrequencyRule.check (onSaleProduct 50 (some 100) none) histFrequentSales =
        ⟨false, [⟨"saleFrequency", Msg.frequencyTooClose30 11⟩]⟩ :=
  ⟨salesFrequency_requires_on_sale _ _ (Or.inl rfl), by decide⟩

/-- **C3** (amended): `NorwegianForprisRule.check` returns compliant whenever
the 30-day pre-sale window holds no observations; the rule performs no
exclusion of observations that were themselves on sale (see the
counterexample). -/
theorem forpris_compliant_on_empty_window (p : ProductData) (h : List PriceHistoryEntry)
    (hwin : ∀ s, resolveSaleStart p h = some s → preSaleWindow s h = []) :
    NorwegianForprisRule.check p h = ⟨true, []⟩ := by
  cases hcap : p.compareAtPrice with
  | none => simp [NorwegianForprisRule.check, hcap]
  | some c =>
    cases hrs : resolveSaleStart p h with
    | none => simp [NorwegianForprisRule.check, hcap, hrs]
    | some s => simp [NorwegianForprisRule.check, hcap, hrs, hwin s hrs]

/-- Witness for C3: an on-sale product whose only observation lies outside
the 30-day pre-sale window is compliant. -/
theorem forpris_compliant_on_empty_window_witness :
    NorwegianForprisRule.check (onSaleProduct 50 (some 100) (some (40 * msPerDay)))
      [obsAt 0 100 none] = ⟨true, []⟩ :=
  forpris_compliant_on_empty_window _ _ (by
    intro s hs
    have hs2 : (some (40 * msPerDay) : Option Int) = some s := hs
    cases hs2
    decide)

/-- **C3** counterexample: the claim's second half fails in both cited
implementations.  `NorwegianForprisRule.check` does not exclude on-sale
observations: a window whose observations were all on sale still yields a
minimum (over the sale prices) and flags the product, instead of returning
compliant.  The checker variant even returns non-compliant when its 30-day
set is empty. -/
theorem forpris_no_exclusion_ce :
    (preSaleWindow (20 * msPerDay) histAllSaleWindow).all obsOnSale = true ∧
      preSaleWindow (20 * msPerDay) histAllSaleWindow ≠ [] ∧
      NorwegianForprisRule.check (productWindow20 100) histAllSaleWindow =
        ⟨false, [⟨"førpris", Msg.forprisHigh 100 50⟩]⟩ ∧
      Checker.checkNorwegianReferencePrice [] (some 100) = ⟨false, Msg.noHistory30⟩ := by
  decide

/-- **C4** (amended): with a determinable sale start and a non-empty pre-sale
window, `NorwegianForprisRule.check` is compliant exactly when
`compareAtPrice` is less than or equal to the lowest window price (computed
over all window observations, on-sale ones included); only the strictly-above
direction raises an issue, citing both values.  The strictly-below direction
is not flagged by this rule (see the counterexample); a two-direction check
exists only in the checker variant, over a 30-days-before-now window. -/
theorem forpris_compliant_iff_not_above_lowest (p : ProductData)
    (h : List PriceHistoryEntry) (c : ℚ) (s : Int)
    (hon : p.isOnSale = true) (hcap : p.compareAtPrice = some c) (hc0 : c ≠ 0)
    (hs : resolveSaleStart p h = some s)
    (hne : preSaleWindow s h ≠ []) :
    ((NorwegianForprisRule.check p h).isCompliant = true ↔
        c ≤ listMin ((preSaleWindow s h).map (·.price))) ∧
      (listMin ((preSaleWindow s h).map (·.price)) < c →
        NorwegianForprisRule.check p h =
          ⟨false, [⟨"førpris", Msg.forprisHigh c
              (listMin ((preSaleWindow s h).map (·.price)))⟩]⟩) := by
  have hguard : (!p.isOnSale || c == 0) = false := by simp [hon, hc0]
  have hemp : ((preSaleWindow s h).map (·.price)).isEmpty = false := by
    simp [List.isEmpty_iff, hne]
  constructor
  · by_cases hlt : listMin ((preSaleWindow s h).map (·.price)) < c
    · simp [NorwegianForprisRule.check, hcap, hguard, hs, hemp, hlt, not_le_of_lt hlt]
    · simp [NorwegianForprisRule.check, hcap, hguard, hs, hemp, hlt, not_lt.mp hlt]
  · intro hlt
    simp [NorwegianForprisRule.check, hcap, hguard, hs, hemp, hlt]

/-- Witness for C4 at the boundary: `compareAtPrice` equal to the lowest
window price is compliant. -/
theorem forpris_compliant_iff_not_above_lowest_witness :
    ((NorwegianForprisRule.check (productWindow20 100) histRegular100).isCompliant = true ↔
        (100 : ℚ) ≤ listMin ((preSaleWindow (20 * msPerDay) histRegular100).map (·.price))) ∧
      (listMin ((preSaleWindow (20 * msPerDay) histRegular100).map (·.price)) < 100 →
        NorwegianForprisRule.check (productWindow20 100) histRegular100 =
          ⟨false, [⟨"førpris", Msg.forprisHigh 100
              (listMin ((preSaleWindow (20 * msPerDay) histRegular100).map (·.price)))⟩]⟩) :=
  forpris_compliant_iff_not_above_lowest _ _ 100 (20 * msPerDay)
    rfl rfl (by norm_num) rfl (by decide)

/-- **C4** counterexample: a `compareAtPrice` of 90 strictly below the lowest
pre-sale price of 100 is NOT flagged by `NorwegianForprisRule.check` — the
rule returns compliant with no issues, contradicting the claim that both
directions are non-compliant with distinct messages. -/
theorem forpris_too_low_unflagged_ce :
    (90 : ℚ) < listMin ((preSaleWindow (20 * msPerDay) histRegular100).map (·.price)) ∧
      NorwegianForprisRule.check (productWindow20 90) histRegular100 = ⟨true, []⟩ := by
  decide

/-- **C6** (amended): for an on-sale product with a determinable sale start,
`SaleDurationRule.check` computes the duration as `Math.ceil`
(not `Math.floor`) of `(now − saleStart) / 1 day` and is non-compliant
exactly when that ceiling strictly exceeds 110 days, citing the actual
duration in the issue.  (The 56-day checker variant is the one that uses
`Math.floor`.) -/
theorem saleDuration_ceil_strict_110 (p : ProductData) (h : List PriceHistoryEntry)
    (now : Int) (c : ℚ) (s : Int)
    (hon : p.isOnSale = true) (hcap : p.compareAtPrice = some c) (hc0 : c ≠ 0)
    (hs : resolveSaleStart p h = some s) :
    ((SaleDurationRule.check p h now).isCompliant = false ↔
        110 < ceilDays (now - s)) ∧
      (110 < ceilDays (now - s) →
        SaleDurationRule.check p h now =
          ⟨false, [⟨"saleDuration", Msg.durationExceeded110 (ceilDays (now - s))⟩]⟩) := by
  have hguard : (!p.isOnSale || c == 0) = false := by simp [hon, hc0]
  constructor
  · by_cases hlt : (110 : Int) < ceilDays (now - s)
    · simp [SaleDurationRule.check, hcap, hguard, hs, hlt]
    · simp [SaleDurationRule.check, hcap, hguard, hs, hlt]
  · intro hlt
    simp [SaleDurationRule.check, hcap, hguard, hs, hlt]

/-- Witness for C6: a sale started exactly 111 days before `now` is flagged
with the actual duration. -/
theorem saleDuration_ceil_strict_110_witness :
    ((SaleDurationRule.check productEmptyHist [] (111 * msPerDay)).isCompliant = false ↔
        (110 : Int) < ceilDays (111 * msPerDay - 0)) ∧
      ((110 : Int) < ceilDays (111 * msPerDay - 0) →
        SaleDurationRule.check productEmptyHist [] (111 * msPerDay) =
          ⟨false, [⟨"saleDuration",
              Msg.durationExceeded110 (ceilDays (111 * msPerDay - 0))⟩]⟩) :=
  saleDuration_ceil_strict_110 _ _ _ 100 0 rfl rfl (by norm_num) rfl

/-- **C6** counterexample: at a sale duration of 110 days plus 12 hours the
claimed `floor` computation gives 110, which does not strictly exceed the
110-day limit, so the claim predicts compliance — but the rule uses
`Math.ceil`, obtains 111, and flags the product. -/
theorem saleDuration_floor_vs_ceil_ce :
    floorDays (110 * msPerDay + 43200000 - 0) = 110 ∧
      SaleDurationRule.check productEmptyHist [] (110 * msPerDay + 43200000) =
        ⟨false, [⟨"saleDuration", Msg.durationExceeded110 111⟩]⟩ := by
  decide

/-- **C1** (amended): on an empty history the reference-price and frequency
rules return compliant and the evaluator returns `isCompliant = true` with no
issues — unless the product itself supplies a `saleStartDate` whose ceiling
day distance from `now` exceeds 110, in which case the duration rule (which
reads only the product field and the clock, not the history) raises its
issue; see the counterexample.  (The DB-backed checker variant instead
returns an error result when it finds no history at all.) -/
theorem evaluate_empty_history_compliant (p : ProductData) (now : Int)
    (hdur : ∀ s, p.saleStartDate = some s → ceilDays (now - s) ≤ 110) :
    checkProductCompliance p [] now = ⟨true, []⟩ := by
  have h1 : NorwegianForprisRule.check p [] = ⟨true, []⟩ := by
    cases hcap : p.compareAtPrice with
    | none => simp [NorwegianForprisRule.check, hcap]
    | some c =>
      cases hss : p.saleStartDate with
      | none =>
        simp [NorwegianForprisRule.check, hcap, resolveSaleStart, hss, findSaleStartDate]
      | some s =>
        simp [NorwegianForprisRule.check, hcap, resolveSaleStart, hss, preSaleWindow]
  have h2 : SaleDurationRule.check p [] now = ⟨true, []⟩ := by
    cases hcap : p.compareAtPrice with
    | none => simp [SaleDurationRule.check, hcap]
    | some c =>
      cases hss : p.saleStartDate with
      | none =>
        simp [SaleDurationRule.check, hcap, resolveSaleStart, hss, findSaleStartDate]
      | some s =>
        have hd : ¬ (110 : Int) < ceilDays (now - s) := not_lt.mpr (hdur s hss)
        simp [SaleDurationRule.check, hcap, resolveSaleStart, hss, hd]
  have h3 : SalesFrequencyRule.check p [] = ⟨true, []⟩ := by
    cases hcap : p.compareAtPrice with
    | none => simp [SalesFrequencyRule.check, hcap]
    | some c => simp [SalesFrequencyRule.check, hcap, findSalesPeriods]
  simp [checkProductCompliance, mergeRuleResult, h1, h2, h3]

/-- Witness for C1: an on-sale product with a supplied sale start evaluated
at that same instant is compliant on an empty history. -/
theorem evaluate_empty_history_compliant_witness :
    checkProductCompliance productEmptyHist [] 0 = ⟨true, []⟩ :=
  evaluate_empty_history_compliant productEmptyHist 0 (by
    intro s hs
    have hs2 : (some 0 : Option Int) = some s := hs
    cases hs2
    decide)

/-- **C1** counterexample: with an empty history, an on-sale product that
supplies a 111-day-old `saleStartDate` is evaluated as non-compliant (the
duration rule fires from the product field alone), contradicting the claim
that an empty history always yields `isCompliant = true` regardless of the
product's fields. -/
theorem evaluate_empty_history_ce :
    checkProductCompliance productEmptyHist [] (111 * msPerDay) =
      ⟨false, [⟨"saleDuration", Msg.durationExceeded110 111⟩]⟩ := by
  decide

/-- **C8** (amended): the evaluation is a deterministic function of
`(product, history, evaluation instant)`; it is independent of the instant
whenever the product is not on sale, but for an on-sale product the duration
rule reads the clock, so two evaluations of identical `(product, history)`
at different instants can differ (see the counterexample). -/
theorem evaluate_time_independent_off_sale (p : ProductData)
    (h : List PriceHistoryEntry) (n₁ n₂ : Int) (hp : p.isOnSale = false) :
    checkProductCompliance p h n₁ = checkProductCompliance p h n₂ := by
  have hdur : SaleDurationRule.check p h n₁ = SaleDurationRule.check p h n₂ := by
    cases hcap : p.compareAtPrice with
    | none => simp [SaleDurationRule.check, hcap]
    | some c => simp [SaleDurationRule.check, hcap, hp]
  rw [checkProductCompliance, checkProductCompliance, hdur]

/-- Witness for C8 at a concrete off-sale product and two distinct instants. -/
theorem evaluate_time_independent_off_sale_witness :
    checkProductCompliance (offSaleProduct 50) histFrequentSales 0 =
      checkProductCompliance (offSaleProduct 50) histFrequentSales msPerDay :=
  evaluate_time_independent_off_sale _ _ 0 msPerDay rfl

/-- **C8** counterexample: evaluating the identical `(product, history)`
pair at two different instants yields different `ComplianceEvaluation`
results (compliant at the sale start, duration-flagged 111 days later), so
the evaluation is not a deterministic function of `(product, history)`
alone. -/
theorem evaluate_not_input_deterministic_ce :
    checkProductCompliance productEmptyHist [] 0 ≠
      checkProductCompliance productEmptyHist [] (111 * msPerDay) := by
  decide

theorem scanGaps_eq_findFirstViolation (rest : List SalePeriod) :
    ∀ p : SalePeriod,
      Checker.scanGaps p rest =
        match ((p :: rest).zip rest).find?
            (fun pr => decide (floorDays (pr.2.start - pr.1.stop) < 28)) with
        | none => ⟨true, Msg.frequencyOk⟩
        | some pr => ⟨false, Msg.daysBetweenSales (floorDays (pr.2.start - pr.1.stop)) 28⟩ := by
  induction rest with
  | nil => intro p; rfl
  | cons curr rest' ih =>
    intro p
    by_cases hlt : floorDays (curr.start - p.stop) < 28
    · rw [List.zip_cons_cons, List.find?_cons_of_pos _ (by simpa using hlt)]
      simp [Checker.scanGaps, hlt]
    · rw [List.zip_cons_cons, List.find?_cons_of_neg _ (by simpa using hlt)]
      rw [Checker.scanGaps, if_neg hlt]
      exact ih curr

theorem scanGaps_false_iff (rest : List SalePeriod) :
    ∀ p : SalePeriod,
      (Checker.scanGaps p rest).isCompliant = false ↔
        ∃ pr ∈ (p :: rest).zip rest, floorDays (pr.2.start - pr.1.stop) < 28 := by
  induction rest with
  | nil => intro p; simp [Checker.scanGaps]
  | cons curr rest' ih =>
    intro p
    by_cases hlt : floorDays (curr.start - p.stop) < 28
    · constructor
      · intro _
        exact ⟨(p, curr), by rw [List.zip_cons_cons]; exact List.mem_cons_self _ _, hlt⟩
      · intro _
        rw [Checker.scanGaps, if_pos hlt]
    · rw [Checker.scanGaps, if_neg hlt, List.zip_cons_cons]
      rw [ih curr]
      constructor
      · rintro ⟨pr, hmem, hpr⟩
        exact ⟨pr, List.mem_cons_of_mem _ hmem, hpr⟩
      · rintro ⟨pr, hmem, hpr⟩
        rcases List.mem_cons.mp hmem with rfl | hmem'
        · exact absurd hpr hlt
        · exact ⟨pr, hmem', hpr⟩

/-- **C5**: over any ordered list of at least two detected sale periods, the
checker's sale-frequency scan computes each adjacent gap as
`Math.floor((current.start − previous.end) / 1 day)`, is non-compliant
exactly when some adjacent gap is strictly below the 28-day minimum, and
reports precisely the first violating gap in scan order, citing the actual
gap and the 28-day minimum. -/
theorem salesFrequency_first_violation (p : SalePeriod) (rest : List SalePeriod)
    (_hlen : 2 ≤ (p :: rest).length) :
    ((Checker.scanGaps p rest).isCompliant = false ↔
        ∃ pr ∈ (p :: rest).zip rest, floorDays (pr.2.start - pr.1.stop) < 28) ∧
      Checker.scanGaps p rest =
        match ((p :: rest).zip rest).find?
            (fun pr => decide (floorDays (pr.2.start - pr.1.stop) < 28)) with
        | none => ⟨true, Msg.frequencyOk⟩
        | some pr => ⟨false, Msg.daysBetweenSales (floorDays (pr.2.start - pr.1.stop)) 28⟩ :=
  ⟨scanGaps_false_iff rest p, scanGaps_eq_findFirstViolation rest p⟩

/-- Witness for C5: two periods 10 days apart are flagged with the computed
floor gap of 10 against the 28-day minimum. -/
theorem salesFrequency_first_violation_witness :
    ((Checker.scanGaps ⟨0, 0⟩ [⟨10 * msPerDay, 11 * msPerDay⟩]).isCompliant = false ↔
        ∃ pr ∈ ([⟨0, 0⟩, ⟨10 * msPerDay, 11 * msPerDay⟩] :
            List SalePeriod).zip ([⟨10 * msPerDay, 11 * msPerDay⟩] : List SalePeriod),
          floorDays (pr.2.start - pr.1.stop) < 28) ∧
      Checker.scanGaps ⟨0, 0⟩ [⟨10 * msPerDay, 11 * msPerDay⟩] =
        match (([⟨0, 0⟩, ⟨10 * msPerDay, 11 * msPerDay⟩] :
            List SalePeriod).zip ([⟨10 * msPerDay, 11 * msPerDay⟩] : List SalePeriod)).find?
            (fun pr => decide (floorDays (pr.2.start - pr.1.stop) < 28)) with
        | none => ⟨true, Msg.frequencyOk⟩
        | some pr => ⟨false, Msg.daysBetweenSales (floorDays (pr.2.start - pr.1.stop)) 28⟩ :=
  salesFrequency_first_violation ⟨0, 0⟩ [⟨10 * msPerDay, 11 * msPerDay⟩] (by decide)

/-- **C7** (amended): the sale-period detector never rejects its input — it
has no failure path.  Instead it stably sorts the observations itself, so
running it on any input (sorted or not) produces exactly the segmentation of
the pre-sorted input rather than a precondition failure. -/
theorem findSalesPeriods_sorts_instead_of_failing (h : List PriceHistoryEntry) :
    findSalesPeriods h = findSalesPeriods (sortByTs h) := by
  have hlen : (sortByTs h).length = h.length := List.length_insertionSort _ _
  rw [findSalesPeriods, findSalesPeriods, hlen, sortByTs_idem]

/-- **C7** counterexample: on a concrete observation sequence that is not
sorted ascending, the detector does not fail loudly — it returns an ordinary
segmentation (one period spanning both observations), and the sale-frequency
rule call containing it likewise returns an ordinary verdict. -/
theorem detector_accepts_unsorted_ce :
    (¬ List.Pairwise (fun a b => a.timestamp < b.timestamp) histUnsorted) ∧
      findSalesPeriods histUnsorted = [⟨msPerDay, 2 * msPerDay⟩] ∧
      SalesFrequencyRule.check (onSaleProduct 50 (some 100) none) histUnsorted =
        ⟨true, []⟩ := by
  refine ⟨by decide, by decide, by decide⟩

/-- **C2** (amended): for every observation sequence strictly sorted
ascending by timestamp with at least two observations, `findSalesPeriods`
returns periods that are pairwise disjoint (each closes strictly before the
next opens) and ordered by start time; every observation whose reference
price is present, non-zero, and strictly greater than its price lies inside
exactly one returned period, and every other observation lies inside none.
A single-observation history, however, yields NO period: the detector
returns `[]` for any history shorter than two entries (see the
counterexample). -/
theorem findSalesPeriods_partition (h : List PriceHistoryEntry)
    (hsort : List.Pairwise (fun a b => a.timestamp < b.timestamp) h)
    (hlen : 2 ≤ h.length) :
    List.Pairwise (fun a b => a.stop < b.start) (findSalesPeriods h) ∧
      (∀ q ∈ findSalesPeriods h, q.start ≤ q.stop) ∧
      (∀ e ∈ h, obsOnSale e = true →
        ∃! q : SalePeriod, q ∈ findSalesPeriods h ∧ inPeriod e.timestamp q) ∧
      (∀ e ∈ h, obsOnSale e = false →
        ∀ q ∈ findSalesPeriods h, ¬ inPeriod e.timestamp q) := by
  have hres : findSalesPeriods h = seg2 none h := by
    rw [findSalesPeriods, if_neg (by omega), sortByTs_of_asc hsort,
      detectPeriods_eq_seg2]
  obtain ⟨hpw, hbound⟩ := seg2_ordered h none hsort trivial
  rw [hres]
  refine ⟨hpw, hbound, ?_, ?_⟩
  · intro e he hon
    obtain ⟨q, hq, hin⟩ := seg2_cover h none hsort trivial e he hon
    refine ⟨q, ⟨hq, hin⟩, ?_⟩
    rintro q' ⟨hq', hin'⟩
    rcases pairwise_mem_cases hpw hq' hq with heq | hlt | hlt
    · exact heq
    · exact absurd hin.1 (not_le_of_lt (lt_of_le_of_lt hin'.2 hlt))
    · exact absurd hin'.1 (not_le_of_lt (lt_of_le_of_lt hin.2 hlt))
  · exact fun e he hoff => seg2_noncover h none hsort trivial e he hoff

/-- Witness for C2 on a concrete sorted two-observation history (one on-sale,
one regular observation). -/
theorem findSalesPeriods_partition_witness :
    List.Pairwise (fun a b => a.stop < b.start) (findSalesPeriods histTwoObs) ∧
      (∀ q ∈ findSalesPeriods histTwoObs, q.start ≤ q.stop) ∧
      (∀ e ∈ histTwoObs, obsOnSale e = true →
        ∃! q : SalePeriod, q ∈ findSalesPeriods histTwoObs ∧ inPeriod e.timestamp q) ∧
      (∀ e ∈ histTwoObs, obsOnSale e = false →
        ∀ q ∈ findSalesPeriods histTwoObs, ¬ inPeriod e.timestamp q) :=
  findSalesPeriods_partition histTwoObs (by decide) (by decide)

/-- **C2** counterexample: a single-observation history that is on sale
yields NO sale period at all — `findSalesPeriods` returns `[]` for any
history shorter than two entries — contradicting the claim that it yields
exactly one period with start equal to end. -/
theorem findSalesPeriods_single_obs_ce :
    obsOnSale (obsAt 1 50 (some 100)) = true ∧
      findSalesPeriods [obsAt 1 50 (some 100)] = [] := by
  refine ⟨by decide, rfl⟩
